import Mathlib

/-!
# Shallow embedding of the shuffling allocator

This file embeds the core of the `shuffling-allocator` crate in Lean 4 and
proves properties of the embedding.

* `size_class_info` mirrors the straight-line classifier in `src/lib.rs`
  (32 size classes, stride doubling every four classes, starting at one
  machine word).
* `ShufflingAllocator.alloc` / `ShufflingAllocator.dealloc` model the
  `GlobalAlloc` implementation as a sequential state machine over
  `AllocState`.  Pointers are natural numbers with `0` playing the role of
  the null pointer.  Calls into the underlying (inner) allocator are
  recorded in an event log; the results the inner allocator would return
  (fresh warm-up pointers, the replacement pointer) and the random index
  drawn from the rng are supplied by an `Oracle` argument.  A result of
  `none` models a process abort via `handle_alloc_error`.
* `LazyCell` models `LazyAtomicCell` from `src/lazy_atomic_cell.rs`
  sequentially (the pointer is either null or published).
-/

/-- Models `mem::size_of::<usize>()` on the 64-bit platforms the crate targets:
one machine word is 8 bytes. -/
def wordSize : Nat := 8

/-- Mirrors `struct SizeClassInfo { index: usize, size_class: usize }`. -/
structure SizeClassInfo where
  index : Nat
  size_class : Nat
deriving Repr, DecidableEq

/-- Mirrors `fn size_class_info(size: usize) -> Option<SizeClassInfo>` from
`src/lib.rs`: a straight-line chain of 32 branches.  In the source, each
branch tests `size <= size_class` against a running `size_class` accumulator
that starts at one machine word, is incremented by `stride` after every
failed test, and whose `stride` doubles after every fourth class; here the
value the accumulator holds at each branch is folded into a literal
(8, 16, 24, 32, 40, 56, ... — word-word-word-word, then 2-word strides, and
so on), one branch per class exactly as in the source.  Theorem
`sizeClassOK_all` checks every branch constant against the independently
defined schedule `specClassSize`. -/
def size_class_info (size : Nat) : Option SizeClassInfo :=
  if size ≤ 8 then some ⟨0, 8⟩ else
  if size ≤ 16 then some ⟨1, 16⟩ else
  if size ≤ 24 then some ⟨2, 24⟩ else
  if size ≤ 32 then some ⟨3, 32⟩ else
  if size ≤ 40 then some ⟨4, 40⟩ else
  if size ≤ 56 then some ⟨5, 56⟩ else
  if size ≤ 72 then some ⟨6, 72⟩ else
  if size ≤ 88 then some ⟨7, 88⟩ else
  if size ≤ 104 then some ⟨8, 104⟩ else
  if size ≤ 136 then some ⟨9, 136⟩ else
  if size ≤ 168 then some ⟨10, 168⟩ else
  if size ≤ 200 then some ⟨11, 200⟩ else
  if size ≤ 232 then some ⟨12, 232⟩ else
  if size ≤ 296 then some ⟨13, 296⟩ else
  if size ≤ 360 then some ⟨14, 360⟩ else
  if size ≤ 424 then some ⟨15, 424⟩ else
  if size ≤ 488 then some ⟨16, 488⟩ else
  if size ≤ 616 then some ⟨17, 616⟩ else
  if size ≤ 744 then some ⟨18, 744⟩ else
  if size ≤ 872 then some ⟨19, 872⟩ else
  if size ≤ 1000 then some ⟨20, 1000⟩ else
  if size ≤ 1256 then some ⟨21, 1256⟩ else
  if size ≤ 1512 then some ⟨22, 1512⟩ else
  if size ≤ 1768 then some ⟨23, 1768⟩ else
  if size ≤ 2024 then some ⟨24, 2024⟩ else
  if size ≤ 2536 then some ⟨25, 2536⟩ else
  if size ≤ 3048 then some ⟨26, 3048⟩ else
  if size ≤ 3560 then some ⟨27, 3560⟩ else
  if size ≤ 4072 then some ⟨28, 4072⟩ else
  if size ≤ 5096 then some ⟨29, 5096⟩ else
  if size ≤ 6120 then some ⟨30, 6120⟩ else
  if size ≤ 7144 then some ⟨31, 7144⟩ else
  none

/-- Constant `NUM_SIZE_CLASSES` from `src/lib.rs`. -/
def NUM_SIZE_CLASSES : Nat := 32

/-- Constant `SHUFFLING_ARRAY_SIZE` from `src/lib.rs`. -/
def SHUFFLING_ARRAY_SIZE : Nat := 256

/-- The stride of class `i` under the schedule of §3 of the spec: it doubles
every four classes, starting from one machine word. -/
def specStride (i : Nat) : Nat := wordSize * 2 ^ (i / 4)

/-- The class sizes dictated by §3 of the spec: class 0 is one machine word,
and each class's size is the class-0 size plus the cumulative sum of
strides. -/
def specClassSize : Nat → Nat
  | 0 => wordSize
  | i + 1 => specClassSize i + specStride i

/-- Boolean check, for a single request size `s`, that `size_class_info`
agrees with the §3 schedule: it returns some class, the returned size is the
schedule size of the returned index, the index is in range, `s` fits in the
class, and the previous class (when there is one) is too small. -/
def sizeClassOK (s : Nat) : Bool :=
  match size_class_info s with
  | none => false
  | some info =>
    decide (info.index < NUM_SIZE_CLASSES) &&
    decide (info.size_class = specClassSize info.index) &&
    decide (s ≤ info.size_class) &&
    (decide (info.index = 0) || decide (specClassSize (info.index - 1) < s))

/-- Balanced (divide-and-conquer) bounded checker: `allIn f fuel lo n`
checks `f` on the `n` naturals starting at `lo`, splitting the interval in
half at every step so that evaluation depth stays logarithmic. -/
def allIn (f : Nat → Bool) : Nat → Nat → Nat → Bool
  | 0, _, n => n == 0
  | fuel + 1, lo, n =>
    if n ≤ 1 then (n == 0 || f lo)
    else allIn f fuel lo (n / 2) && allIn f fuel (lo + n / 2) (n - n / 2)

/-! ## The allocator state machine

Pointers are naturals; `0` models the null pointer.  The inner (underlying)
allocator is kept abstract: the pointers it would return during one shuffler
operation are supplied by an `Oracle`, and every call the shuffler makes
into it is recorded as an `Event`.  `none` as an operation result models a
process abort through `handle_alloc_error`. -/

/-- A raw pointer (`*mut u8`); `0` is null. -/
abbrev Ptr := Nat

/-- Models `std::alloc::Layout`: a size and an alignment in bytes. -/
structure Layout where
  size : Nat
  align : Nat
deriving DecidableEq, Repr

/-- One call made by the shuffler into the underlying allocator. -/
inductive Event where
  /-- Call `inner.alloc(layout)` returned `result` (`0` = null = failure). -/
  | innerAlloc (layout : Layout) (result : Ptr)
  /-- Call `inner.dealloc(p, layout)`. -/
  | innerDealloc (p : Ptr) (layout : Layout)
deriving DecidableEq, Repr

/-- Mirrors `struct ShufflingArray<A>`: 256 atomically-swappable pointer
slots plus the size class (the `allocator` reference is implicit in the
model). -/
structure ShufflingArray where
  elems : Fin 256 → Ptr
  size_class : Nat

/-- Mirrors `ShufflingArray::elem_layout`: size = the size class, alignment
= one machine word. -/
def ShufflingArray.elem_layout (a : ShufflingArray) : Layout :=
  ⟨a.size_class, wordSize⟩

/-- Mirrors `ShufflingArray::new`: obtain 256 blocks of the class layout
from the underlying allocator (their values are the oracle's `warm`
pointers) and store them in the slots.  A null block means
`handle_alloc_error` is invoked, modelled as `none`.  On success it also
yields the inner-allocator events performed. -/
def ShufflingArray.new (size_class : Nat) (warm : Fin 256 → Ptr) :
    Option (ShufflingArray × List Event) :=
  if ∀ i : Fin 256, warm i ≠ 0 then
    some (⟨warm, size_class⟩,
      (List.finRange 256).map fun i => .innerAlloc ⟨size_class, wordSize⟩ (warm i))
  else none

/-- The mutable state of the shuffler: the 32 per-class lazy cells
(`SizeClasses`), each holding `none` until its shuffling array is
materialized.  (The index is kept as a bare `Nat`; only indices below
`NUM_SIZE_CLASSES` are ever touched, which the theorems track.) -/
structure AllocState where
  classes : Nat → Option ShufflingArray

/-- The state of a freshly declared (`wrap!`-ed) allocator: no class has
been materialized. -/
def initState : AllocState := ⟨fun _ => none⟩

/-- Publish (or replace) the shuffling array of class `idx`. -/
def setClass (st : AllocState) (idx : Nat) (arr : ShufflingArray) : AllocState :=
  ⟨fun j => if j = idx then some arr else st.classes j⟩

/-- The inputs one shuffler operation consumes from its environment: the
256 pointers the underlying allocator would hand out during a warm-up (used
only if the operation materializes the class's array), the pointer the
underlying allocator would return for the replacement/bypass allocation
(`0` = null), and the random slot index drawn from the rng — `gen_range(0..
SHUFFLING_ARRAY_SIZE)` always lands in `[0, 256)`, which the type `Fin 256`
records. -/
structure Oracle where
  warm : Fin 256 → Ptr
  replacement : Ptr
  index : Fin 256

/-- Mirrors `ShufflingAllocator::shuffling_array`: classify the size; on a
classifiable size fetch the class's array, lazily creating (warming up) and
publishing it on first use.  Returns the array together with its class
index, the updated state, and the inner-allocator events performed;
`none` (inner option) when the size has no class; `none` (outer) models
abort during warm-up. -/
def shuffling_array (st : AllocState) (size : Nat) (warm : Fin 256 → Ptr) :
    Option (Option (ShufflingArray × Nat) × AllocState × List Event) :=
  match size_class_info size with
  | none => some (none, st, [])
  | some info =>
    match st.classes info.index with
    | some arr => some (some (arr, info.index), st, [])
    | none =>
      match ShufflingArray.new info.size_class warm with
      | none => none
      | some (arr, evs) =>
        some (some (arr, info.index), setClass st info.index arr, evs)

/-- Mirrors `ShufflingAllocator::alloc`.  Over-aligned layouts bypass to the
inner allocator; unclassifiable sizes likewise; otherwise allocate a
replacement block with the class layout (null → return null), swap it into
the drawn slot and return the slot's previous resident.  The result is the
returned pointer, the new state, and the inner-allocator events. -/
def ShufflingAllocator.alloc (st : AllocState) (layout : Layout) (orc : Oracle) :
    Option (Ptr × AllocState × List Event) :=
  if layout.align > wordSize then
    some (orc.replacement, st, [.innerAlloc layout orc.replacement])
  else
    match shuffling_array st layout.size orc.warm with
    | none => none
    | some (none, st', evs) =>
      some (orc.replacement, st', evs ++ [.innerAlloc layout orc.replacement])
    | some (some (arr, idx), st', evs) =>
      if orc.replacement = 0 then
        some (0, st', evs ++ [.innerAlloc arr.elem_layout 0])
      else
        some (arr.elems orc.index,
          setClass st' idx
            ⟨fun j => if j = orc.index then orc.replacement else arr.elems j, arr.size_class⟩,
          evs ++ [.innerAlloc arr.elem_layout orc.replacement])

/-- Mirrors `ShufflingAllocator::dealloc`.  Null pointers are ignored;
over-aligned layouts and unclassifiable sizes bypass to the inner
allocator; otherwise swap the freed pointer into the drawn slot and hand
the slot's previous resident to the inner allocator with the class
layout. -/
def ShufflingAllocator.dealloc (st : AllocState) (p : Ptr) (layout : Layout) (orc : Oracle) :
    Option (AllocState × List Event) :=
  if p = 0 then
    some (st, [])
  else if layout.align > wordSize then
    some (st, [.innerDealloc p layout])
  else
    match shuffling_array st layout.size orc.warm with
    | none => none
    | some (none, st', evs) => some (st', evs ++ [.innerDealloc p layout])
    | some (some (arr, idx), st', evs) =>
      some (setClass st' idx
          ⟨fun j => if j = orc.index then p else arr.elems j, arr.size_class⟩,
        evs ++ [.innerDealloc (arr.elems orc.index) arr.elem_layout])

/-! ## Traces and block counting -/

/-- Holds exactly on events where the underlying allocator handed out a
(non-null) block. -/
def Event.isLiveAlloc : Event → Bool
  | .innerAlloc _ r => r != 0
  | .innerDealloc _ _ => false

/-- Holds exactly on events where a block was returned to the underlying
allocator. -/
def Event.isFree : Event → Bool
  | .innerAlloc _ _ => false
  | .innerDealloc _ _ => true

/-- Number of blocks obtained from the underlying allocator in a trace. -/
def allocCount (evs : List Event) : Nat := evs.countP Event.isLiveAlloc

/-- Number of blocks returned to the underlying allocator in a trace. -/
def deallocCount (evs : List Event) : Nat := evs.countP Event.isFree

/-- Net number of underlying blocks obtained and not yet returned. -/
def outstanding (evs : List Event) : Int :=
  (allocCount evs : Int) - (deallocCount evs : Int)

/-- Number of size classes with a materialized shuffling array among the
first `n` class indices. -/
def classesUsedBelow (st : AllocState) : Nat → Nat
  | 0 => 0
  | n + 1 => classesUsedBelow st n + (if (st.classes n).isSome then 1 else 0)

/-- Number of size classes ever used (their array exists; arrays are never
torn down while the allocator lives). -/
def classesUsed (st : AllocState) : Nat := classesUsedBelow st NUM_SIZE_CLASSES

/-- One request made of the shuffling allocator, together with the oracle
inputs (inner-allocator responses and the drawn random index) it consumes. -/
inductive Op where
  | alloc (layout : Layout) (orc : Oracle)
  | dealloc (p : Ptr) (layout : Layout) (orc : Oracle)

/-- Run one operation, keeping the state and the inner-allocator events. -/
def Op.step (st : AllocState) : Op → Option (AllocState × List Event)
  | .alloc layout orc =>
    (ShufflingAllocator.alloc st layout orc).map fun r => (r.2.1, r.2.2)
  | .dealloc p layout orc => ShufflingAllocator.dealloc st p layout orc

/-- Run a sequence of operations, concatenating the inner-allocator
events.  `none` models a process abort somewhere in the sequence. -/
def run (st : AllocState) : List Op → Option (AllocState × List Event)
  | [] => some (st, [])
  | op :: ops =>
    match Op.step st op with
    | none => none
    | some (st', evs) =>
      match run st' ops with
      | none => none
      | some (st'', evs') => some (st'', evs ++ evs')

/-- The operation goes through the shuffle (not a bypass): word-or-smaller
alignment and a classifiable size; for an allocation the underlying
allocator yields a (non-null) replacement block, and a deallocation frees a
non-null pointer. -/
def Op.throughShuffler : Op → Prop
  | .alloc layout orc =>
    layout.align ≤ wordSize ∧ (size_class_info layout.size).isSome = true ∧
      orc.replacement ≠ 0
  | .dealloc p layout _ =>
    p ≠ 0 ∧ layout.align ≤ wordSize ∧ (size_class_info layout.size).isSome = true

/-- The number of allocation requests in a sequence. -/
def numAllocs (ops : List Op) : Nat :=
  ops.countP fun op => match op with | .alloc _ _ => true | _ => false

/-- The number of deallocation requests in a sequence. -/
def numDeallocs (ops : List Op) : Nat :=
  ops.countP fun op => match op with | .dealloc _ _ _ => true | _ => false

/-! ## The non-null-slot invariant -/

/-- Every materialized shuffling array has all 256 slots non-null. -/
def slotsFull (st : AllocState) : Prop :=
  ∀ i arr, st.classes i = some arr → ∀ j : Fin 256, arr.elems j ≠ 0

/-! ## Lazy atomic cell (sequential model) -/

/-- Models `LazyAtomicCell<A, T>` from `src/lazy_atomic_cell.rs`: a pointer
that is either null (`none`) or published (`some` value).  The sequential
model identifies the heap-resident `T` with its value. -/
structure LazyCell (T : Type) where
  ptr : Option T

/-- Mirrors `LazyAtomicCell::get_or_create`.  If the pointer is already
published, return it (no `init`, no allocation).  Otherwise allocate storage
for `T` through the cell's allocator (the oracle pointer `fresh`; null means
`handle_alloc_error`, modelled `none`), run `init`, write the value, and
publish it (the compare-and-set against null always succeeds in the
sequential model).  The result records the value, the new cell, the
inner-allocator events, and whether `init` ran. -/
def LazyCell.get_or_create {T : Type} (c : LazyCell T) (init : Unit → T)
    (layoutT : Layout) (fresh : Ptr) :
    Option (T × LazyCell T × List Event × Bool) :=
  match c.ptr with
  | some v => some (v, c, [], false)
  | none =>
    if fresh = 0 then none
    else some (init (), ⟨some (init ())⟩, [.innerAlloc layoutT fresh], true)

/-! ## Concrete inputs used by the witnesses -/

/-- A 24-byte, word-aligned request (class 2). -/
def layoutW : Layout := ⟨24, 8⟩

/-- Distinct non-null warm-up pointers. -/
def warmW : Fin 256 → Ptr := fun i => (i : Nat) + 1

/-- A concrete oracle: warm pointers as above, replacement pointer `1000`,
random index 0. -/
def orcW : Oracle := ⟨warmW, 1000, 0⟩

/-- A concrete materialized class-2 array. -/
def arrW : ShufflingArray := ⟨warmW, 24⟩

/-- A state with class 2 materialized. -/
def stW1 : AllocState := setClass initState 2 arrW

/-- One allocation of 24 bytes from the pristine state. -/
def opsW : List Op := [Op.alloc layoutW orcW]

/-- The class-2 array after the witness allocation swapped slot 0. -/
def arrW2 : ShufflingArray :=
  ⟨fun j => if j = orcW.index then orcW.replacement else warmW j, 24⟩

/-- The state `opsW` reaches. -/
def stW : AllocState := setClass (setClass initState 2 arrW) 2 arrW2

/-- The inner-allocator events `opsW` performs. -/
def evsW : List Event :=
  ((List.finRange 256).map fun i => Event.innerAlloc ⟨24, 8⟩ (warmW i))
    ++ [Event.innerAlloc ⟨24, 8⟩ 1000]

/-- An initially empty lazy cell over `Nat`. -/
def cellW : LazyCell Nat := ⟨none⟩

/-! ## Theorems -/

theorem allIn_sound (f : Nat → Bool) :
    ∀ fuel lo n, allIn f fuel lo n = true → ∀ i, lo ≤ i → i < lo + n → f i = true := by
  intro fuel
  induction fuel with
  | zero =>
    intro lo n h i h1 h2
    simp only [allIn, beq_iff_eq] at h
    omega
  | succ fuel ih =>
    intro lo n h i h1 h2
    simp only [allIn] at h
    by_cases hn : n ≤ 1
    · rw [if_pos hn] at h
      have hn1 : n = 1 := by omega
      have hi : i = lo := by omega
      subst hn1; subst hi
      simpa using h
    · rw [if_neg hn] at h
      rw [Bool.and_eq_true] at h
      by_cases hi : i < lo + n / 2
      · exact ih lo (n / 2) h.1 i h1 hi
      · exact ih (lo + n / 2) (n - n / 2) h.2 i (by omega) (by omega)

set_option maxHeartbeats 1000000 in
theorem sizeClassOK_all : allIn sizeClassOK 14 0 7145 = true := by decide

theorem sizeClassOK_below (s : Nat) (hs : s < 7145) : sizeClassOK s = true :=
  allIn_sound sizeClassOK 14 0 7145 sizeClassOK_all s (Nat.zero_le s) (by omega)

theorem specClassSize_31 : specClassSize 31 = 7144 := by decide

theorem specClassSize_lt_succ (n : Nat) : specClassSize n < specClassSize (n + 1) := by
  have h : 0 < specStride n := by
    unfold specStride wordSize
    positivity
  simp only [specClassSize]
  omega

theorem specClassSize_strictMono : StrictMono specClassSize :=
  strictMono_nat_of_lt_succ specClassSize_lt_succ

theorem size_class_info_none (s : Nat) (hs : 7144 < s) : size_class_info s = none := by
  unfold size_class_info
  rw [if_neg (show ¬(s ≤ 8) by omega)]
  rw [if_neg (show ¬(s ≤ 16) by omega)]
  rw [if_neg (show ¬(s ≤ 24) by omega)]
  rw [if_neg (show ¬(s ≤ 32) by omega)]
  rw [if_neg (show ¬(s ≤ 40) by omega)]
  rw [if_neg (show ¬(s ≤ 56) by omega)]
  rw [if_neg (show ¬(s ≤ 72) by omega)]
  rw [if_neg (show ¬(s ≤ 88) by omega)]
  rw [if_neg (show ¬(s ≤ 104) by omega)]
  rw [if_neg (show ¬(s ≤ 136) by omega)]
  rw [if_neg (show ¬(s ≤ 168) by omega)]
  rw [if_neg (show ¬(s ≤ 200) by omega)]
  rw [if_neg (show ¬(s ≤ 232) by omega)]
  rw [if_neg (show ¬(s ≤ 296) by omega)]
  rw [if_neg (show ¬(s ≤ 360) by omega)]
  rw [if_neg (show ¬(s ≤ 424) by omega)]
  rw [if_neg (show ¬(s ≤ 488) by omega)]
  rw [if_neg (show ¬(s ≤ 616) by omega)]
  rw [if_neg (show ¬(s ≤ 744) by omega)]
  rw [if_neg (show ¬(s ≤ 872) by omega)]
  rw [if_neg (show ¬(s ≤ 1000) by omega)]
  rw [if_neg (show ¬(s ≤ 1256) by omega)]
  rw [if_neg (show ¬(s ≤ 1512) by omega)]
  rw [if_neg (show ¬(s ≤ 1768) by omega)]
  rw [if_neg (show ¬(s ≤ 2024) by omega)]
  rw [if_neg (show ¬(s ≤ 2536) by omega)]
  rw [if_neg (show ¬(s ≤ 3048) by omega)]
  rw [if_neg (show ¬(s ≤ 3560) by omega)]
  rw [if_neg (show ¬(s ≤ 4072) by omega)]
  rw [if_neg (show ¬(s ≤ 5096) by omega)]
  rw [if_neg (show ¬(s ≤ 6120) by omega)]
  rw [if_neg (show ¬(s ≤ 7144) by omega)]

/-- Unpacked form of the bounded check: whenever `size_class_info` returns a
class, the index is in range, the size is the §3 schedule size of that index,
the request fits, and the previous class (if any) is too small. -/
theorem size_class_info_some_spec (s : Nat) (info : SizeClassInfo)
    (h : size_class_info s = some info) :
    info.index < 32 ∧ info.size_class = specClassSize info.index ∧
      s ≤ info.size_class ∧ (info.index = 0 ∨ specClassSize (info.index - 1) < s) := by
  by_cases hs : s ≤ 7144
  · have hb := sizeClassOK_below s (by omega)
    unfold sizeClassOK at hb
    rw [h] at hb
    simp only [Bool.and_eq_true, Bool.or_eq_true, decide_eq_true_eq, NUM_SIZE_CLASSES] at hb
    tauto
  · rw [size_class_info_none s (by omega)] at h
    cases h

theorem size_class_info_isSome (s : Nat) (hs : s ≤ 7144) :
    ∃ info, size_class_info s = some info := by
  have hb := sizeClassOK_below s (by omega)
  unfold sizeClassOK at hb
  cases h : size_class_info s with
  | none => rw [h] at hb; cases hb
  | some info => exact ⟨info, rfl⟩

theorem classesUsedBelow_setClass_isSome (st : AllocState) (idx : Nat) (arr : ShufflingArray)
    (h : (st.classes idx).isSome = true) :
    ∀ n, classesUsedBelow (setClass st idx arr) n = classesUsedBelow st n := by
  intro n
  induction n with
  | zero => rfl
  | succ n ih =>
    simp only [classesUsedBelow, ih]
    by_cases hj : n = idx
    · subst hj
      simp [setClass, h]
    · simp [setClass, hj]

theorem classesUsedBelow_setClass_none (st : AllocState) (idx : Nat) (arr : ShufflingArray)
    (h : st.classes idx = none) :
    ∀ n, classesUsedBelow (setClass st idx arr) n
      = classesUsedBelow st n + (if idx < n then 1 else 0) := by
  intro n
  induction n with
  | zero => simp [classesUsedBelow]
  | succ n ih =>
    simp only [classesUsedBelow, ih]
    by_cases hj : n = idx
    · subst hj
      simp only [setClass, if_pos rfl, h, Option.isSome_some, Option.isSome_none]
      simp only [Nat.lt_irrefl, if_false, Nat.lt_succ_self, if_pos, if_true]
      simp
    · have : (setClass st idx arr).classes n = st.classes n := by
        simp [setClass, hj]
      rw [this]
      split_ifs <;> omega

theorem classesUsed_setClass_isSome (st : AllocState) (idx : Nat) (arr : ShufflingArray)
    (h : (st.classes idx).isSome = true) :
    classesUsed (setClass st idx arr) = classesUsed st :=
  classesUsedBelow_setClass_isSome st idx arr h NUM_SIZE_CLASSES

theorem classesUsed_setClass_none (st : AllocState) (idx : Nat) (arr : ShufflingArray)
    (h : st.classes idx = none) (hidx : idx < 32) :
    classesUsed (setClass st idx arr) = classesUsed st + 1 := by
  unfold classesUsed NUM_SIZE_CLASSES
  rw [classesUsedBelow_setClass_none st idx arr h 32, if_pos hidx]

theorem classesUsed_initState : classesUsed initState = 0 := by decide

theorem allocCount_append (a b : List Event) :
    allocCount (a ++ b) = allocCount a + allocCount b := by
  unfold allocCount
  exact List.countP_append _ _ _

theorem deallocCount_append (a b : List Event) :
    deallocCount (a ++ b) = deallocCount a + deallocCount b := by
  unfold deallocCount
  exact List.countP_append _ _ _

theorem allocCount_warm (size_class : Nat) (warm : Fin 256 → Ptr) (h : ∀ i, warm i ≠ 0) :
    allocCount ((List.finRange 256).map fun i =>
      Event.innerAlloc ⟨size_class, wordSize⟩ (warm i)) = 256 := by
  unfold allocCount
  rw [List.countP_map]
  have hall : ∀ a ∈ List.finRange 256,
      (Event.isLiveAlloc ∘ fun i => Event.innerAlloc ⟨size_class, wordSize⟩ (warm i)) a = true := by
    intro a _
    simp [Event.isLiveAlloc, h a]
  rw [List.countP_eq_length.mpr hall, List.length_finRange]

theorem deallocCount_warm (size_class : Nat) (warm : Fin 256 → Ptr) :
    deallocCount ((List.finRange 256).map fun i =>
      Event.innerAlloc ⟨size_class, wordSize⟩ (warm i)) = 0 := by
  unfold deallocCount
  rw [List.countP_map]
  apply List.countP_eq_zero.mpr
  intro a _
  simp [Event.isFree]

theorem shuffling_array_miss (st : AllocState) (size : Nat) (warm : Fin 256 → Ptr)
    (h : size_class_info size = none) :
    shuffling_array st size warm = some (none, st, []) := by
  unfold shuffling_array
  rw [h]

theorem shuffling_array_hit (st : AllocState) (size : Nat) (warm : Fin 256 → Ptr)
    (info : SizeClassInfo) (arr : ShufflingArray)
    (hinfo : size_class_info size = some info) (harr : st.classes info.index = some arr) :
    shuffling_array st size warm = some (some (arr, info.index), st, []) := by
  unfold shuffling_array
  rw [hinfo]
  simp only [harr]

theorem shuffling_array_create (st : AllocState) (size : Nat) (warm : Fin 256 → Ptr)
    (info : SizeClassInfo)
    (hinfo : size_class_info size = some info) (harr : st.classes info.index = none)
    (hwarm : ∀ i : Fin 256, warm i ≠ 0) :
    shuffling_array st size warm
      = some (some (⟨warm, info.size_class⟩, info.index),
          setClass st info.index ⟨warm, info.size_class⟩,
          (List.finRange 256).map fun i =>
            .innerAlloc ⟨info.size_class, wordSize⟩ (warm i)) := by
  unfold shuffling_array ShufflingArray.new
  rw [hinfo]
  simp only [harr, if_pos hwarm]

theorem alloc_bypass_align (st : AllocState) (layout : Layout) (orc : Oracle)
    (hal : wordSize < layout.align) :
    ShufflingAllocator.alloc st layout orc
      = some (orc.replacement, st, [.innerAlloc layout orc.replacement]) := by
  unfold ShufflingAllocator.alloc
  rw [if_pos hal]

theorem alloc_bypass_size (st : AllocState) (layout : Layout) (orc : Oracle)
    (hal : layout.align ≤ wordSize) (hsz : size_class_info layout.size = none) :
    ShufflingAllocator.alloc st layout orc
      = some (orc.replacement, st, [.innerAlloc layout orc.replacement]) := by
  unfold ShufflingAllocator.alloc
  rw [if_neg (by omega : ¬ wordSize < layout.align),
    shuffling_array_miss st layout.size orc.warm hsz]
  rfl

theorem alloc_shuffle_hit (st : AllocState) (layout : Layout) (orc : Oracle)
    (info : SizeClassInfo) (arr : ShufflingArray)
    (hal : layout.align ≤ wordSize)
    (hinfo : size_class_info layout.size = some info)
    (harr : st.classes info.index = some arr) (hrep : orc.replacement ≠ 0) :
    ShufflingAllocator.alloc st layout orc
      = some (arr.elems orc.index,
          setClass st info.index
            ⟨fun j => if j = orc.index then orc.replacement else arr.elems j, arr.size_class⟩,
          [.innerAlloc arr.elem_layout orc.replacement]) := by
  unfold ShufflingAllocator.alloc
  rw [if_neg (by omega : ¬ wordSize < layout.align),
    shuffling_array_hit st layout.size orc.warm info arr hinfo harr]
  simp only [if_neg hrep, List.nil_append]

theorem alloc_shuffle_hit_null (st : AllocState) (layout : Layout) (orc : Oracle)
    (info : SizeClassInfo) (arr : ShufflingArray)
    (hal : layout.align ≤ wordSize)
    (hinfo : size_class_info layout.size = some info)
    (harr : st.classes info.index = some arr) (hrep : orc.replacement = 0) :
    ShufflingAllocator.alloc st layout orc
      = some (0, st, [.innerAlloc arr.elem_layout 0]) := by
  unfold ShufflingAllocator.alloc
  rw [if_neg (by omega : ¬ wordSize < layout.align),
    shuffling_array_hit st layout.size orc.warm info arr hinfo harr]
  simp only [if_pos hrep, List.nil_append]

theorem alloc_shuffle_create (st : AllocState) (layout : Layout) (orc : Oracle)
    (info : SizeClassInfo)
    (hal : layout.align ≤ wordSize)
    (hinfo : size_class_info layout.size = some info)
    (harr : st.classes info.index = none)
    (hwarm : ∀ i : Fin 256, orc.warm i ≠ 0) (hrep : orc.replacement ≠ 0) :
    ShufflingAllocator.alloc st layout orc
      = some (orc.warm orc.index,
          setClass (setClass st info.index ⟨orc.warm, info.size_class⟩) info.index
            ⟨fun j => if j = orc.index then orc.replacement else orc.warm j, info.size_class⟩,
          ((List.finRange 256).map fun i =>
            .innerAlloc ⟨info.size_class, wordSize⟩ (orc.warm i))
            ++ [.innerAlloc ⟨info.size_class, wordSize⟩ orc.replacement]) := by
  unfold ShufflingAllocator.alloc
  rw [if_neg (by omega : ¬ wordSize < layout.align),
    shuffling_array_create st layout.size orc.warm info hinfo harr hwarm]
  simp only [if_neg hrep]
  rfl

theorem alloc_shuffle_create_null (st : AllocState) (layout : Layout) (orc : Oracle)
    (info : SizeClassInfo)
    (hal : layout.align ≤ wordSize)
    (hinfo : size_class_info layout.size = some info)
    (harr : st.classes info.index = none)
    (hwarm : ∀ i : Fin 256, orc.warm i ≠ 0) (hrep : orc.replacement = 0) :
    ShufflingAllocator.alloc st layout orc
      = some (0, setClass st info.index ⟨orc.warm, info.size_class⟩,
          ((List.finRange 256).map fun i =>
            .innerAlloc ⟨info.size_class, wordSize⟩ (orc.warm i))
            ++ [.innerAlloc ⟨info.size_class, wordSize⟩ 0]) := by
  unfold ShufflingAllocator.alloc
  rw [if_neg (by omega : ¬ wordSize < layout.align),
    shuffling_array_create st layout.size orc.warm info hinfo harr hwarm]
  simp only [if_pos hrep]
  rfl

theorem dealloc_null (st : AllocState) (layout : Layout) (orc : Oracle) :
    ShufflingAllocator.dealloc st 0 layout orc = some (st, []) := by
  unfold ShufflingAllocator.dealloc
  rw [if_pos rfl]

theorem dealloc_bypass_align (st : AllocState) (p : Ptr) (layout : Layout) (orc : Oracle)
    (hp : p ≠ 0) (hal : wordSize < layout.align) :
    ShufflingAllocator.dealloc st p layout orc = some (st, [.innerDealloc p layout]) := by
  unfold ShufflingAllocator.dealloc
  rw [if_neg hp, if_pos hal]

theorem dealloc_bypass_size (st : AllocState) (p : Ptr) (layout : Layout) (orc : Oracle)
    (hp : p ≠ 0) (hal : layout.align ≤ wordSize)
    (hsz : size_class_info layout.size = none) :
    ShufflingAllocator.dealloc st p layout orc = some (st, [.innerDealloc p layout]) := by
  unfold ShufflingAllocator.dealloc
  rw [if_neg hp, if_neg (by omega : ¬ wordSize < layout.align),
    shuffling_array_miss st layout.size orc.warm hsz]
  rfl

theorem dealloc_shuffle_hit (st : AllocState) (p : Ptr) (layout : Layout) (orc : Oracle)
    (info : SizeClassInfo) (arr : ShufflingArray)
    (hp : p ≠ 0) (hal : layout.align ≤ wordSize)
    (hinfo : size_class_info layout.size = some info)
    (harr : st.classes info.index = some arr) :
    ShufflingAllocator.dealloc st p layout orc
      = some (setClass st info.index
            ⟨fun j => if j = orc.index then p else arr.elems j, arr.size_class⟩,
          [.innerDealloc (arr.elems orc.index) arr.elem_layout]) := by
  unfold ShufflingAllocator.dealloc
  rw [if_neg hp, if_neg (by omega : ¬ wordSize < layout.align),
    shuffling_array_hit st layout.size orc.warm info arr hinfo harr]
  simp

theorem dealloc_shuffle_create (st : AllocState) (p : Ptr) (layout : Layout) (orc : Oracle)
    (info : SizeClassInfo)
    (hp : p ≠ 0) (hal : layout.align ≤ wordSize)
    (hinfo : size_class_info layout.size = some info)
    (harr : st.classes info.index = none)
    (hwarm : ∀ i : Fin 256, orc.warm i ≠ 0) :
    ShufflingAllocator.dealloc st p layout orc
      = some (setClass (setClass st info.index ⟨orc.warm, info.size_class⟩) info.index
            ⟨fun j => if j = orc.index then p else orc.warm j, info.size_class⟩,
          ((List.finRange 256).map fun i =>
            .innerAlloc ⟨info.size_class, wordSize⟩ (orc.warm i))
            ++ [.innerDealloc (orc.warm orc.index) ⟨info.size_class, wordSize⟩]) := by
  unfold ShufflingAllocator.dealloc
  rw [if_neg hp, if_neg (by omega : ¬ wordSize < layout.align),
    shuffling_array_create st layout.size orc.warm info hinfo harr hwarm]
  rfl

theorem shuffling_array_abort (st : AllocState) (size : Nat) (warm : Fin 256 → Ptr)
    (info : SizeClassInfo)
    (hinfo : size_class_info size = some info) (harr : st.classes info.index = none)
    (hwarm : ¬ ∀ i : Fin 256, warm i ≠ 0) :
    shuffling_array st size warm = none := by
  unfold shuffling_array ShufflingArray.new
  rw [hinfo]
  simp only [harr, if_neg hwarm]

theorem alloc_abort (st : AllocState) (layout : Layout) (orc : Oracle)
    (info : SizeClassInfo)
    (hal : layout.align ≤ wordSize)
    (hinfo : size_class_info layout.size = some info)
    (harr : st.classes info.index = none)
    (hwarm : ¬ ∀ i : Fin 256, orc.warm i ≠ 0) :
    ShufflingAllocator.alloc st layout orc = none := by
  unfold ShufflingAllocator.alloc
  rw [if_neg (by omega : ¬ wordSize < layout.align),
    shuffling_array_abort st layout.size orc.warm info hinfo harr hwarm]

theorem dealloc_abort (st : AllocState) (p : Ptr) (layout : Layout) (orc : Oracle)
    (info : SizeClassInfo)
    (hp : p ≠ 0) (hal : layout.align ≤ wordSize)
    (hinfo : size_class_info layout.size = some info)
    (harr : st.classes info.index = none)
    (hwarm : ¬ ∀ i : Fin 256, orc.warm i ≠ 0) :
    ShufflingAllocator.dealloc st p layout orc = none := by
  unfold ShufflingAllocator.dealloc
  rw [if_neg hp, if_neg (by omega : ¬ wordSize < layout.align),
    shuffling_array_abort st layout.size orc.warm info hinfo harr hwarm]

theorem setClass_isSome_self (st : AllocState) (idx : Nat) (arr : ShufflingArray) :
    ((setClass st idx arr).classes idx).isSome = true := by
  simp [setClass]

/-- One successful allocation through the shuffle takes exactly one live
block from the underlying allocator, plus 256 more when it materializes the
size class. -/
theorem alloc_counts (st : AllocState) (layout : Layout) (orc : Oracle)
    (p : Ptr) (st' : AllocState) (evs : List Event)
    (hal : layout.align ≤ wordSize) (hcl : (size_class_info layout.size).isSome = true)
    (hrep : orc.replacement ≠ 0)
    (h : ShufflingAllocator.alloc st layout orc = some (p, st', evs)) :
    allocCount evs + 256 * classesUsed st = 1 + 256 * classesUsed st' ∧
      deallocCount evs = 0 := by
  obtain ⟨info, hinfo⟩ := Option.isSome_iff_exists.mp hcl
  have hidx := (size_class_info_some_spec layout.size info hinfo).1
  cases harr : st.classes info.index with
  | some arr =>
    rw [alloc_shuffle_hit st layout orc info arr hal hinfo harr hrep] at h
    simp only [Option.some.injEq, Prod.mk.injEq] at h
    obtain ⟨hp, hst, hevs⟩ := h
    subst hst
    subst hevs
    have hcu : classesUsed (setClass st info.index
        ⟨fun j => if j = orc.index then orc.replacement else arr.elems j, arr.size_class⟩)
        = classesUsed st :=
      classesUsed_setClass_isSome st info.index _ (by rw [harr]; rfl)
    rw [hcu]
    constructor
    · simp [allocCount, List.countP_cons, Event.isLiveAlloc, hrep]
    · simp [deallocCount, List.countP_cons, Event.isFree]
  | none =>
    by_cases hwarm : ∀ i : Fin 256, orc.warm i ≠ 0
    · rw [alloc_shuffle_create st layout orc info hal hinfo harr hwarm hrep] at h
      simp only [Option.some.injEq, Prod.mk.injEq] at h
      obtain ⟨hp, hst, hevs⟩ := h
      subst hst
      subst hevs
      have hcu1 : classesUsed (setClass st info.index ⟨orc.warm, info.size_class⟩)
          = classesUsed st + 1 :=
        classesUsed_setClass_none st info.index _ harr hidx
      have hcu2 : classesUsed (setClass (setClass st info.index ⟨orc.warm, info.size_class⟩)
            info.index ⟨fun j => if j = orc.index then orc.replacement else orc.warm j,
              info.size_class⟩)
          = classesUsed (setClass st info.index ⟨orc.warm, info.size_class⟩) :=
        classesUsed_setClass_isSome _ info.index _ (setClass_isSome_self st info.index _)
      rw [hcu2, hcu1]
      constructor
      · rw [allocCount_append, allocCount_warm info.size_class orc.warm hwarm]
        have : allocCount [Event.innerAlloc ⟨info.size_class, wordSize⟩ orc.replacement] = 1 := by
          simp [allocCount, List.countP_cons, Event.isLiveAlloc, hrep]
        rw [this]
        ring
      · rw [deallocCount_append, deallocCount_warm info.size_class orc.warm]
        simp [deallocCount, List.countP_cons, Event.isFree]
    · rw [alloc_abort st layout orc info hal hinfo harr hwarm] at h
      cases h

/-- One deallocation through the shuffle returns exactly one block to the
underlying allocator, after taking 256 when it materializes the size
class. -/
theorem dealloc_counts (st : AllocState) (p : Ptr) (layout : Layout) (orc : Oracle)
    (st' : AllocState) (evs : List Event)
    (hp : p ≠ 0) (hal : layout.align ≤ wordSize)
    (hcl : (size_class_info layout.size).isSome = true)
    (h : ShufflingAllocator.dealloc st p layout orc = some (st', evs)) :
    allocCount evs + 256 * classesUsed st = 256 * classesUsed st' ∧
      deallocCount evs = 1 := by
  obtain ⟨info, hinfo⟩ := Option.isSome_iff_exists.mp hcl
  have hidx := (size_class_info_some_spec layout.size info hinfo).1
  cases harr : st.classes info.index with
  | some arr =>
    rw [dealloc_shuffle_hit st p layout orc info arr hp hal hinfo harr] at h
    simp only [Option.some.injEq, Prod.mk.injEq] at h
    obtain ⟨hst, hevs⟩ := h
    subst hst
    subst hevs
    have hcu : classesUsed (setClass st info.index
        ⟨fun j => if j = orc.index then p else arr.elems j, arr.size_class⟩)
        = classesUsed st :=
      classesUsed_setClass_isSome st info.index _ (by rw [harr]; rfl)
    rw [hcu]
    constructor
    · simp [allocCount, List.countP_cons, Event.isLiveAlloc]
    · simp [deallocCount, List.countP_cons, Event.isFree]
  | none =>
    by_cases hwarm : ∀ i : Fin 256, orc.warm i ≠ 0
    · rw [dealloc_shuffle_create st p layout orc info hp hal hinfo harr hwarm] at h
      simp only [Option.some.injEq, Prod.mk.injEq] at h
      obtain ⟨hst, hevs⟩ := h
      subst hst
      subst hevs
      have hcu1 : classesUsed (setClass st info.index ⟨orc.warm, info.size_class⟩)
          = classesUsed st + 1 :=
        classesUsed_setClass_none st info.index _ harr hidx
      have hcu2 : classesUsed (setClass (setClass st info.index ⟨orc.warm, info.size_class⟩)
            info.index ⟨fun j => if j = orc.index then p else orc.warm j, info.size_class⟩)
          = classesUsed (setClass st info.index ⟨orc.warm, info.size_class⟩) :=
        classesUsed_setClass_isSome _ info.index _ (setClass_isSome_self st info.index _)
      rw [hcu2, hcu1]
      constructor
      · rw [allocCount_append, allocCount_warm info.size_class orc.warm hwarm]
        have : allocCount [Event.innerDealloc (orc.warm orc.index)
            ⟨info.size_class, wordSize⟩] = 0 := by
          simp [allocCount, List.countP_cons, Event.isLiveAlloc]
        rw [this]
        ring
      · rw [deallocCount_append, deallocCount_warm info.size_class orc.warm]
        simp [deallocCount, List.countP_cons, Event.isFree]
    · rw [dealloc_abort st p layout orc info hp hal hinfo harr hwarm] at h
      cases h

theorem numAllocs_cons_alloc (layout : Layout) (orc : Oracle) (ops : List Op) :
    numAllocs (Op.alloc layout orc :: ops) = numAllocs ops + 1 := by
  simp [numAllocs, List.countP_cons]

theorem numAllocs_cons_dealloc (p : Ptr) (layout : Layout) (orc : Oracle) (ops : List Op) :
    numAllocs (Op.dealloc p layout orc :: ops) = numAllocs ops := by
  simp [numAllocs, List.countP_cons]

theorem numDeallocs_cons_alloc (layout : Layout) (orc : Oracle) (ops : List Op) :
    numDeallocs (Op.alloc layout orc :: ops) = numDeallocs ops := by
  simp [numDeallocs, List.countP_cons]

theorem numDeallocs_cons_dealloc (p : Ptr) (layout : Layout) (orc : Oracle) (ops : List Op) :
    numDeallocs (Op.dealloc p layout orc :: ops) = numDeallocs ops + 1 := by
  simp [numDeallocs, List.countP_cons]

/-- Block accounting over a whole run: live blocks obtained = allocations
plus 256 per newly materialized class; blocks freed = deallocations. -/
theorem run_counts (ops : List Op) : ∀ st st' evs,
    (∀ op ∈ ops, op.throughShuffler) → run st ops = some (st', evs) →
    allocCount evs + 256 * classesUsed st = numAllocs ops + 256 * classesUsed st' ∧
      deallocCount evs = numDeallocs ops := by
  induction ops with
  | nil =>
    intro st st' evs _ h
    simp only [run, Option.some.injEq, Prod.mk.injEq] at h
    obtain ⟨hst, hevs⟩ := h
    subst hst
    subst hevs
    simp [allocCount, deallocCount, numAllocs, numDeallocs]
  | cons op ops ih =>
    intro st st' evs hops h
    unfold run at h
    split at h
    · cases h
    · rename_i st1 evs1 hstep
      split at h
      · cases h
      · rename_i st2 evs2 hrun
        simp only [Option.some.injEq, Prod.mk.injEq] at h
        obtain ⟨hst, hevs⟩ := h
        subst hst
        subst hevs
        have hop := hops op (List.mem_cons_self op ops)
        have hops' : ∀ o ∈ ops, o.throughShuffler := fun o ho =>
          hops o (List.mem_cons_of_mem op ho)
        obtain ⟨ihc1, ihc2⟩ := ih st1 st2 evs2 hops' hrun
        cases op with
        | alloc layout orc =>
          obtain ⟨hal, hcl, hrep⟩ := hop
          unfold Op.step at hstep
          rcases Option.map_eq_some'.mp hstep with ⟨⟨p, stm, evsm⟩, hallo, heq⟩
          simp only [Prod.mk.injEq] at heq
          obtain ⟨hst1, hevs1⟩ := heq
          rw [hst1, hevs1] at hallo
          obtain ⟨c1, c2⟩ := alloc_counts st layout orc p st1 evs1 hal hcl hrep hallo
          rw [allocCount_append, deallocCount_append, numAllocs_cons_alloc,
            numDeallocs_cons_alloc]
          omega
        | dealloc p layout orc =>
          obtain ⟨hp, hal, hcl⟩ := hop
          unfold Op.step at hstep
          obtain ⟨c1, c2⟩ := dealloc_counts st p layout orc st1 evs1 hp hal hcl hstep
          rw [allocCount_append, deallocCount_append, numAllocs_cons_dealloc,
            numDeallocs_cons_dealloc]
          omega

theorem slotsFull_initState : slotsFull initState := by
  intro i arr h
  exact absurd h (by simp [initState])

theorem slotsFull_setClass (st : AllocState) (idx : Nat) (arr : ShufflingArray)
    (hinv : slotsFull st) (harr : ∀ j : Fin 256, arr.elems j ≠ 0) :
    slotsFull (setClass st idx arr) := by
  intro i a h j
  by_cases hi : i = idx
  · rw [hi] at h
    have hx : (setClass st idx arr).classes idx = some arr := by simp [setClass]
    rw [hx] at h
    injection h with h
    rw [← h]
    exact harr j
  · have hx : (setClass st idx arr).classes i = st.classes i := by simp [setClass, hi]
    rw [hx] at h
    exact hinv i a h j

theorem step_slotsFull (st : AllocState) (op : Op) (st' : AllocState) (evs : List Event)
    (h : Op.step st op = some (st', evs)) (hinv : slotsFull st) : slotsFull st' := by
  cases op with
  | alloc layout orc =>
    unfold Op.step at h
    rcases Option.map_eq_some'.mp h with ⟨⟨p, stm, evsm⟩, hallo, heq⟩
    simp only [Prod.mk.injEq] at heq
    rw [heq.1] at hallo
    by_cases hal : wordSize < layout.align
    · rw [alloc_bypass_align st layout orc hal] at hallo
      simp only [Option.some.injEq, Prod.mk.injEq] at hallo
      rw [← hallo.2.1]
      exact hinv
    · have hal' : layout.align ≤ wordSize := by omega
      cases hinfo : size_class_info layout.size with
      | none =>
        rw [alloc_bypass_size st layout orc hal' hinfo] at hallo
        simp only [Option.some.injEq, Prod.mk.injEq] at hallo
        rw [← hallo.2.1]
        exact hinv
      | some info =>
        cases harr : st.classes info.index with
        | some arr =>
          by_cases hrep : orc.replacement = 0
          · rw [alloc_shuffle_hit_null st layout orc info arr hal' hinfo harr hrep] at hallo
            simp only [Option.some.injEq, Prod.mk.injEq] at hallo
            rw [← hallo.2.1]
            exact hinv
          · rw [alloc_shuffle_hit st layout orc info arr hal' hinfo harr hrep] at hallo
            simp only [Option.some.injEq, Prod.mk.injEq] at hallo
            rw [← hallo.2.1]
            apply slotsFull_setClass st info.index _ hinv
            intro j
            by_cases hj : j = orc.index
            · simp only [hj, if_pos rfl]
              exact hrep
            · simp only [if_neg hj]
              exact hinv info.index arr harr j
        | none =>
          by_cases hwarm : ∀ i : Fin 256, orc.warm i ≠ 0
          · by_cases hrep : orc.replacement = 0
            · rw [alloc_shuffle_create_null st layout orc info hal' hinfo harr hwarm hrep]
                at hallo
              simp only [Option.some.injEq, Prod.mk.injEq] at hallo
              rw [← hallo.2.1]
              exact slotsFull_setClass st info.index _ hinv hwarm
            · rw [alloc_shuffle_create st layout orc info hal' hinfo harr hwarm hrep] at hallo
              simp only [Option.some.injEq, Prod.mk.injEq] at hallo
              rw [← hallo.2.1]
              apply slotsFull_setClass _ info.index _
              · exact slotsFull_setClass st info.index _ hinv hwarm
              · intro j
                by_cases hj : j = orc.index
                · simp only [hj, if_pos rfl]
                  exact hrep
                · simp only [if_neg hj]
                  exact hwarm j
          · rw [alloc_abort st layout orc info hal' hinfo harr hwarm] at hallo
            cases hallo
  | dealloc p layout orc =>
    change ShufflingAllocator.dealloc st p layout orc = some (st', evs) at h
    by_cases hp : p = 0
    · subst hp
      rw [dealloc_null st layout orc] at h
      simp only [Option.some.injEq, Prod.mk.injEq] at h
      rw [← h.1]
      exact hinv
    · by_cases hal : wordSize < layout.align
      · rw [dealloc_bypass_align st p layout orc hp hal] at h
        simp only [Option.some.injEq, Prod.mk.injEq] at h
        rw [← h.1]
        exact hinv
      · have hal' : layout.align ≤ wordSize := by omega
        cases hinfo : size_class_info layout.size with
        | none =>
          rw [dealloc_bypass_size st p layout orc hp hal' hinfo] at h
          simp only [Option.some.injEq, Prod.mk.injEq] at h
          rw [← h.1]
          exact hinv
        | some info =>
          cases harr : st.classes info.index with
          | some arr =>
            rw [dealloc_shuffle_hit st p layout orc info arr hp hal' hinfo harr] at h
            simp only [Option.some.injEq, Prod.mk.injEq] at h
            rw [← h.1]
            apply slotsFull_setClass st info.index _ hinv
            intro j
            by_cases hj : j = orc.index
            · simp only [hj, if_pos rfl]
              exact hp
            · simp only [if_neg hj]
              exact hinv info.index arr harr j
          | none =>
            by_cases hwarm : ∀ i : Fin 256, orc.warm i ≠ 0
            · rw [dealloc_shuffle_create st p layout orc info hp hal' hinfo harr hwarm] at h
              simp only [Option.some.injEq, Prod.mk.injEq] at h
              rw [← h.1]
              apply slotsFull_setClass _ info.index _
              · exact slotsFull_setClass st info.index _ hinv hwarm
              · intro j
                by_cases hj : j = orc.index
                · simp only [hj, if_pos rfl]
                  exact hp
                · simp only [if_neg hj]
                  exact hwarm j
            · rw [dealloc_abort st p layout orc info hp hal' hinfo harr hwarm] at h
              cases h

theorem run_slotsFull (ops : List Op) : ∀ st st' evs,
    slotsFull st → run st ops = some (st', evs) → slotsFull st' := by
  induction ops with
  | nil =>
    intro st st' evs hinv h
    simp only [run, Option.some.injEq, Prod.mk.injEq] at h
    rw [← h.1]
    exact hinv
  | cons op ops ih =>
    intro st st' evs hinv h
    unfold run at h
    split at h
    · cases h
    · rename_i st1 evs1 hstep
      split at h
      · cases h
      · rename_i st2 evs2 hrun
        simp only [Option.some.injEq, Prod.mk.injEq] at h
        rw [← h.1]
        exact ih st1 st2 evs2 (step_slotsFull st op st1 evs1 hstep hinv) hrun

/-- C1: for every request size `s` not exceeding class 31's size,
`size_class_info s` returns a pair of an index `i` and the class size
`specClassSize i` of the §3 schedule (stride doubling every four classes
from one machine word, sizes = class-0 size plus cumulative strides), the
returned size is at least `s`, and it is the smallest schedule size that
is at least `s`. -/
theorem claim_C1 (s : Nat) (hs : s ≤ specClassSize 31) :
    ∃ i, size_class_info s = some ⟨i, specClassSize i⟩ ∧ s ≤ specClassSize i ∧
      ∀ j, s ≤ specClassSize j → specClassSize i ≤ specClassSize j := by
  rw [specClassSize_31] at hs
  obtain ⟨info, hinfo⟩ := size_class_info_isSome s hs
  obtain ⟨hlt, hsz, hle, hmin⟩ := size_class_info_some_spec s info hinfo
  refine ⟨info.index, ?_, ?_, ?_⟩
  · rw [hinfo, ← hsz]
  · rw [← hsz]
    exact hle
  · intro j hj
    by_cases hij : info.index ≤ j
    · exact specClassSize_strictMono.monotone hij
    · exfalso
      have hj1 : j ≤ info.index - 1 := by omega
      cases hmin with
      | inl h0 => omega
      | inr hprev =>
        have hmono : specClassSize j ≤ specClassSize (info.index - 1) :=
          specClassSize_strictMono.monotone hj1
        omega

theorem claim_C1_witness :
    24 ≤ specClassSize 31 ∧
      ∃ i, size_class_info 24 = some ⟨i, specClassSize i⟩ ∧ 24 ≤ specClassSize i ∧
        ∀ j, 24 ≤ specClassSize j → specClassSize i ≤ specClassSize j :=
  ⟨by decide, claim_C1 24 (by decide)⟩

/-- C2: for any completed sequence of operations through the shuffler
(word-or-smaller alignment, classifiable sizes, non-null pointers, inner
allocations succeeding) starting from the pristine state, the net number of
underlying blocks obtained and not yet returned equals the number of
allocations minus the number of deallocations plus 256 times the number of
size classes ever used. -/
theorem claim_C2 (ops : List Op) (st : AllocState) (evs : List Event)
    (hops : ∀ op ∈ ops, op.throughShuffler)
    (hrun : run initState ops = some (st, evs)) :
    outstanding evs
      = (numAllocs ops : Int) - (numDeallocs ops : Int) + 256 * (classesUsed st : Int) := by
  obtain ⟨c1, c2⟩ := run_counts ops initState st evs hops hrun
  rw [classesUsed_initState] at c1
  unfold outstanding
  omega

set_option maxRecDepth 4000 in
theorem claim_C2_witness :
    outstanding evsW
      = (numAllocs opsW : Int) - (numDeallocs opsW : Int) + 256 * (classesUsed stW : Int) :=
  claim_C2 opsW stW evsW
    (by
      intro op hop
      rcases List.mem_singleton.mp hop with rfl
      exact ⟨by decide, by decide, by decide⟩)
    (by rfl)

/-- C3: with word-or-smaller alignment and a classifiable size, `alloc`
obtains a replacement block from the underlying allocator with the class
layout (class size, word alignment), swaps it into the drawn slot of the
class's 256-slot shuffling array (the drawn index, supplied by the rng's
`gen_range(0..256)`, is an arbitrary element of `Fin 256`), and returns the
slot's previous resident; if the underlying allocation returns null, `alloc`
returns null and no slot is mutated. -/
theorem claim_C3 (st : AllocState) (layout : Layout) (orc : Oracle)
    (info : SizeClassInfo) (arr : ShufflingArray)
    (hal : layout.align ≤ wordSize)
    (hinfo : size_class_info layout.size = some info)
    (harr : st.classes info.index = some arr)
    (hsz : arr.size_class = info.size_class) :
    (orc.replacement ≠ 0 →
      ShufflingAllocator.alloc st layout orc
        = some (arr.elems orc.index,
            setClass st info.index
              ⟨fun j => if j = orc.index then orc.replacement else arr.elems j,
                arr.size_class⟩,
            [.innerAlloc ⟨info.size_class, wordSize⟩ orc.replacement]))
    ∧ (orc.replacement = 0 →
      ShufflingAllocator.alloc st layout orc
        = some (0, st, [.innerAlloc ⟨info.size_class, wordSize⟩ 0])) := by
  constructor
  · intro hrep
    rw [alloc_shuffle_hit st layout orc info arr hal hinfo harr hrep]
    unfold ShufflingArray.elem_layout
    rw [hsz]
  · intro hrep
    rw [alloc_shuffle_hit_null st layout orc info arr hal hinfo harr hrep]
    unfold ShufflingArray.elem_layout
    rw [hsz]

theorem claim_C3_witness :
    ShufflingAllocator.alloc stW1 layoutW orcW
      = some (arrW.elems orcW.index,
          setClass stW1 2
            ⟨fun j => if j = orcW.index then orcW.replacement else arrW.elems j,
              arrW.size_class⟩,
          [.innerAlloc ⟨24, wordSize⟩ orcW.replacement]) :=
  (claim_C3 stW1 layoutW orcW ⟨2, 24⟩ arrW (by decide) (by decide) rfl rfl).1 (by decide)

/-- C4: with a non-null pointer, word-or-smaller alignment and a
classifiable size, `dealloc` swaps the freed pointer into the drawn slot of
the class's shuffling array (the drawn index is an arbitrary element of
`Fin 256`) and hands the slot's previous resident to the underlying
allocator with the class layout (class size, word alignment) — not the
caller's layout. -/
theorem claim_C4 (st : AllocState) (p : Ptr) (layout : Layout) (orc : Oracle)
    (info : SizeClassInfo) (arr : ShufflingArray)
    (hp : p ≠ 0) (hal : layout.align ≤ wordSize)
    (hinfo : size_class_info layout.size = some info)
    (harr : st.classes info.index = some arr)
    (hsz : arr.size_class = info.size_class) :
    ShufflingAllocator.dealloc st p layout orc
      = some (setClass st info.index
            ⟨fun j => if j = orc.index then p else arr.elems j, arr.size_class⟩,
          [.innerDealloc (arr.elems orc.index) ⟨info.size_class, wordSize⟩]) := by
  rw [dealloc_shuffle_hit st p layout orc info arr hp hal hinfo harr]
  unfold ShufflingArray.elem_layout
  rw [hsz]

theorem claim_C4_witness :
    ShufflingAllocator.dealloc stW1 7 layoutW orcW
      = some (setClass stW1 2
            ⟨fun j => if j = orcW.index then 7 else arrW.elems j, arrW.size_class⟩,
          [.innerDealloc (arrW.elems orcW.index) ⟨24, wordSize⟩]) :=
  claim_C4 stW1 7 layoutW orcW ⟨2, 24⟩ arrW (by decide) (by decide) (by decide) rfl rfl

/-- C5: for a layout whose alignment exceeds one machine word, `alloc`
delegates to the underlying allocator with the caller's layout unchanged and
returns exactly the pointer it produced, and `dealloc` of a non-null pointer
forwards pointer and layout unchanged; the state (hence every shuffling
array) is untouched in both directions. -/
theorem claim_C5 (st : AllocState) (p : Ptr) (layout : Layout) (orc : Oracle)
    (hal : wordSize < layout.align) :
    ShufflingAllocator.alloc st layout orc
        = some (orc.replacement, st, [.innerAlloc layout orc.replacement])
    ∧ (p ≠ 0 →
      ShufflingAllocator.dealloc st p layout orc
        = some (st, [.innerDealloc p layout])) :=
  ⟨alloc_bypass_align st layout orc hal,
   fun hp => dealloc_bypass_align st p layout orc hp hal⟩

theorem claim_C5_witness :
    ShufflingAllocator.alloc initState ⟨24, 32⟩ orcW
        = some (orcW.replacement, initState, [.innerAlloc ⟨24, 32⟩ orcW.replacement])
    ∧ ShufflingAllocator.dealloc initState 7 ⟨24, 32⟩ orcW
        = some (initState, [.innerDealloc 7 ⟨24, 32⟩]) :=
  ⟨(claim_C5 initState 7 ⟨24, 32⟩ orcW (by decide)).1,
   (claim_C5 initState 7 ⟨24, 32⟩ orcW (by decide)).2 (by decide)⟩

/-- C6: a request of exactly class 31's size maps to class 31; every larger
request yields no class, and both `alloc` and `dealloc` then delegate to the
underlying allocator with the caller's layout unchanged. -/
theorem claim_C6 :
    size_class_info (specClassSize 31) = some ⟨31, specClassSize 31⟩
    ∧ (∀ s, specClassSize 31 < s → size_class_info s = none)
    ∧ (∀ st layout orc, layout.align ≤ wordSize → specClassSize 31 < layout.size →
        ShufflingAllocator.alloc st layout orc
          = some (orc.replacement, st, [.innerAlloc layout orc.replacement]))
    ∧ (∀ st p layout orc, p ≠ 0 → layout.align ≤ wordSize →
        specClassSize 31 < layout.size →
        ShufflingAllocator.dealloc st p layout orc
          = some (st, [.innerDealloc p layout])) := by
  refine ⟨?_, ?_, ?_, ?_⟩
  · rw [specClassSize_31]
    decide
  · intro s hs
    rw [specClassSize_31] at hs
    exact size_class_info_none s hs
  · intro st layout orc hal hsz
    rw [specClassSize_31] at hsz
    exact alloc_bypass_size st layout orc hal (size_class_info_none layout.size hsz)
  · intro st p layout orc hp hal hsz
    rw [specClassSize_31] at hsz
    exact dealloc_bypass_size st p layout orc hp hal (size_class_info_none layout.size hsz)

theorem claim_C6_witness :
    size_class_info 7145 = none
    ∧ ShufflingAllocator.alloc initState ⟨7145, 8⟩ orcW
        = some (orcW.replacement, initState, [.innerAlloc ⟨7145, 8⟩ orcW.replacement])
    ∧ ShufflingAllocator.dealloc initState 7 ⟨7145, 8⟩ orcW
        = some (initState, [.innerDealloc 7 ⟨7145, 8⟩]) :=
  ⟨claim_C6.2.1 7145 (by decide),
   claim_C6.2.2.1 initState ⟨7145, 8⟩ orcW (by decide) (by decide),
   claim_C6.2.2.2 initState 7 ⟨7145, 8⟩ orcW (by decide) (by decide) (by decide)⟩

/-- C7: in every state reachable by a completed run from the pristine
state (i.e. whenever no operation is in progress), every slot of every
materialized shuffling array holds a non-null pointer: warm-up fills all
256 slots with non-null blocks (aborting via the allocation-error handler
otherwise), `alloc` only swaps in a non-null replacement, and `dealloc`
only swaps in the caller's non-null pointer. -/
theorem claim_C7 (ops : List Op) (st : AllocState) (evs : List Event)
    (hrun : run initState ops = some (st, evs)) : slotsFull st :=
  run_slotsFull ops initState st evs slotsFull_initState hrun

set_option maxRecDepth 4000 in
theorem claim_C7_witness : slotsFull stW :=
  claim_C7 opsW stW evsW (by rfl)

/-- C8: `get_or_create` runs `init` and publishes at most once: on an empty
cell with a successful allocation it allocates with `T`'s layout, runs
`init`, writes the value and publishes it; on an initialized cell it returns
the published value without running `init` or allocating; consequently,
after any successful call, a further call (with any `init`, any allocator
response) returns the same published value without running `init` and
leaves the cell unchanged. -/
theorem claim_C8 {T : Type} (c : LazyCell T) (init : Unit → T)
    (layoutT : Layout) (fresh : Ptr) :
    (c.ptr = none → fresh ≠ 0 →
      c.get_or_create init layoutT fresh
        = some (init (), ⟨some (init ())⟩, [.innerAlloc layoutT fresh], true))
    ∧ (∀ v, c.ptr = some v →
      c.get_or_create init layoutT fresh = some (v, c, [], false))
    ∧ (∀ v c' evs ran, c.get_or_create init layoutT fresh = some (v, c', evs, ran) →
      ∀ (init2 : Unit → T) (fresh2 : Ptr),
        c'.get_or_create init2 layoutT fresh2 = some (v, c', [], false)) := by
  refine ⟨?_, ?_, ?_⟩
  · intro hc hf
    unfold LazyCell.get_or_create
    rw [hc]
    simp only [if_neg hf]
  · intro v hv
    unfold LazyCell.get_or_create
    rw [hv]
  · intro v c' evs ran h init2 fresh2
    cases hc : c.ptr with
    | some w =>
      unfold LazyCell.get_or_create at h
      rw [hc] at h
      simp only [Option.some.injEq, Prod.mk.injEq] at h
      obtain ⟨hv, hc', _, _⟩ := h
      rw [← hc']
      unfold LazyCell.get_or_create
      rw [hc, hv]
    | none =>
      unfold LazyCell.get_or_create at h
      rw [hc] at h
      by_cases hf : fresh = 0
      · simp only [if_pos hf] at h
        cases h
      · simp only [if_neg hf, Option.some.injEq, Prod.mk.injEq] at h
        obtain ⟨hv, hc', _, _⟩ := h
        rw [← hc', ← hv]
        unfold LazyCell.get_or_create
        rfl

theorem claim_C8_witness :
    cellW.get_or_create (fun _ => 5) ⟨8, 8⟩ 1
      = some (5, ⟨some 5⟩, [.innerAlloc ⟨8, 8⟩ 1], true)
    ∧ LazyCell.get_or_create ⟨some 5⟩ (fun _ => 6) ⟨8, 8⟩ 2 = some (5, ⟨some 5⟩, [], false) :=
  ⟨(claim_C8 cellW (fun _ => 5) ⟨8, 8⟩ 1).1 rfl (by decide),
   (claim_C8 cellW (fun _ => 5) ⟨8, 8⟩ 1).2.2 5 ⟨some 5⟩ [.innerAlloc ⟨8, 8⟩ 1] true
     ((claim_C8 cellW (fun _ => 5) ⟨8, 8⟩ 1).1 rfl (by decide)) (fun _ => 6) 2⟩

/-- C9: `dealloc(null, layout)` is a no-op for every layout and every
oracle: the state is unchanged and the underlying allocator is not
called. -/
theorem claim_C9 (st : AllocState) (layout : Layout) (orc : Oracle) :
    ShufflingAllocator.dealloc st 0 layout orc = some (st, []) :=
  dealloc_null st layout orc

/-- C10: `size_class_info` is monotone: for `s1 ≤ s2`, if both are
classified then the index and class size for `s1` are at most those for
`s2`, and if `s1` is unclassifiable then so is `s2`; moreover a size-0
request is classified into class 0 (one machine word), not bypassed. -/
theorem claim_C10 :
    (∀ s1 s2 : Nat, s1 ≤ s2 →
      (∀ i1 c1 i2 c2, size_class_info s1 = some ⟨i1, c1⟩ →
        size_class_info s2 = some ⟨i2, c2⟩ → i1 ≤ i2 ∧ c1 ≤ c2)
      ∧ (size_class_info s1 = none → size_class_info s2 = none))
    ∧ size_class_info 0 = some ⟨0, wordSize⟩ := by
  constructor
  · intro s1 s2 h12
    constructor
    · intro i1 c1 i2 c2 h1 h2
      obtain ⟨hlt1, hsz1, hle1, hmin1⟩ := size_class_info_some_spec s1 ⟨i1, c1⟩ h1
      obtain ⟨hlt2, hsz2, hle2, hmin2⟩ := size_class_info_some_spec s2 ⟨i2, c2⟩ h2
      have hsz1' : c1 = specClassSize i1 := hsz1
      have hsz2' : c2 = specClassSize i2 := hsz2
      have hle1' : s1 ≤ c1 := hle1
      have hle2' : s2 ≤ c2 := hle2
      have hmin1' : i1 = 0 ∨ specClassSize (i1 - 1) < s1 := hmin1
      have hii : i1 ≤ i2 := by
        by_contra hcon
        have hj1 : i2 ≤ i1 - 1 := by omega
        have hmono : specClassSize i2 ≤ specClassSize (i1 - 1) :=
          specClassSize_strictMono.monotone hj1
        cases hmin1' with
        | inl h0 => omega
        | inr hprev => omega
      refine ⟨hii, ?_⟩
      rw [hsz1', hsz2']
      exact specClassSize_strictMono.monotone hii
    · intro h1
      by_cases hs2 : s2 ≤ 7144
      · obtain ⟨info, hinfo⟩ := size_class_info_isSome s1 (by omega)
        rw [hinfo] at h1
        cases h1
      · exact size_class_info_none s2 (by omega)
  · decide

theorem claim_C10_witness : (1 ≤ 2 ∧ 16 ≤ 24) ∧ size_class_info 7200 = none :=
  ⟨(claim_C10.1 10 20 (by decide)).1 1 16 2 24 (by decide) (by decide),
   (claim_C10.1 7145 7200 (by decide)).2 (by decide)⟩
